import Mathlib

/-!
Verification of the recurring-expense materialization engine of ExpenseOwl.

The source of authority is the Go code of the `databaseStore`
(`UpdateRecurringExpense`, `RemoveRecurringExpense`,
`generateExpensesFromRecurring`).  Dates are modelled at day granularity:
a Go `time.Time` is represented by its calendar triple (year, month, day),
and `time.Time.Before` by a strict comparison of a monotone numeric
encoding of the triple (Go compares the underlying instants numerically;
on valid calendar dates the encoding below agrees with calendar order,
see `dateLt_eq_calendar`).
-/

/-- A Go `time.Time` at day granularity: a calendar date. -/
structure GoDate where
  year : Nat
  month : Nat
  day : Nat
deriving DecidableEq, Repr

/-- Gregorian leap-year rule (as in Go's `time` package). -/
def isLeapYear (y : Nat) : Bool :=
  y % 4 = 0 && (y % 100 != 0 || y % 400 = 0)

/-- Number of days in a month of a given year (months are 1..12). -/
def daysInMonth (y m : Nat) : Nat :=
  match m with
  | 2 => if isLeapYear y then 29 else 28
  | 4 => 30
  | 6 => 30
  | 9 => 30
  | 11 => 30
  | _ => 31

/-- A date is a valid calendar date. -/
def ValidDate (d : GoDate) : Prop :=
  1 ≤ d.month ∧ d.month ≤ 12 ∧ 1 ≤ d.day ∧ d.day ≤ daysInMonth d.year d.month

instance (d : GoDate) : Decidable (ValidDate d) := by
  unfold ValidDate; infer_instance

/-- Monotone numeric encoding of a date, playing the role of the numeric
instant inside a Go `time.Time`.  On valid calendar dates it orders dates
exactly like the calendar (see `dateLt_eq_calendar`). -/
def ord (d : GoDate) : Nat :=
  1000 * d.year + 50 * d.month + d.day

/-- Model of `time.Time.Before` at day granularity: Go compares the
underlying numeric instants strictly. -/
def dateLt (a b : GoDate) : Bool :=
  ord a < ord b

/-- Calendar (lexicographic) strict order on date triples. -/
def calendarLt (a b : GoDate) : Prop :=
  a.year < b.year ∨ (a.year = b.year ∧
    (a.month < b.month ∨ (a.month = b.month ∧ a.day < b.day)))

/-- Day-overflow normalization as performed by Go's `time.Date` for the
day offsets that arise in this program: a day count that exceeds the
length of the month rolls forward into the following month.  For every
call site in this development the day argument is at most 38, so a single
roll step reaches the canonical date, exactly as Go's normalization does. -/
def rollDay (y m d : Nat) : GoDate :=
  if d ≤ daysInMonth y m then ⟨y, m, d⟩
  else if m = 12 then ⟨y + 1, 1, d - 31⟩
  else ⟨y, m + 1, d - daysInMonth y m⟩

/-- The interval step of `generateExpensesFromRecurring`: the `switch` on
`recExp.Interval`, whose arms are Go's `AddDate(0,0,1)`, `AddDate(0,0,7)`,
`AddDate(0,1,0)` and `AddDate(1,0,0)`; `none` models the `default` arm
(invalid interval). -/
def stepDate (dt : GoDate) (interval : String) : Option GoDate :=
  if interval = "daily" then some (rollDay dt.year dt.month (dt.day + 1))
  else if interval = "weekly" then some (rollDay dt.year dt.month (dt.day + 7))
  else if interval = "monthly" then
    some (if dt.month = 12 then rollDay (dt.year + 1) 1 dt.day
          else rollDay dt.year (dt.month + 1) dt.day)
  else if interval = "yearly" then some (rollDay (dt.year + 1) dt.month dt.day)
  else none

theorem daysInMonth_bounds (y m : Nat) :
    28 ≤ daysInMonth y m ∧ daysInMonth y m ≤ 31 := by
  unfold daysInMonth
  split <;> first
    | (constructor <;> omega)
    | (split <;> (constructor <;> omega))

theorem ord_lt_step (dt : GoDate) (interval : String) (next : GoDate)
    (h : stepDate dt interval = some next) : ord dt < ord next := by
  unfold stepDate at h
  have h1 := daysInMonth_bounds dt.year dt.month
  have h2 := daysInMonth_bounds dt.year (dt.month + 1)
  have h3 := daysInMonth_bounds (dt.year + 1) 1
  have h4 := daysInMonth_bounds (dt.year + 1) dt.month
  split_ifs at h <;> injection h with h <;> subst h <;>
    unfold rollDay <;> split_ifs <;> simp [ord] at * <;> omega

/-- The fast-forward loop of `generateExpensesFromRecurring`
(`for currentDate.Before(today) && (recExp.Occurrences == 0 ||
occurrencesToGenerate > 0) { ... }`).  Returns the final cursor and the
remaining budget; `none` models the early `return expenses` (with the
still-empty list) on an invalid interval. -/
def ffLoop (interval : String) (occurrences : Nat) (today : GoDate)
    (cursor : GoDate) (budget : Nat) : Option (GoDate × Nat) :=
  if h : dateLt cursor today ∧ (occurrences = 0 ∨ 0 < budget) then
    match hs : stepDate cursor interval with
    | none => none
    | some next =>
      ffLoop interval occurrences today next
        (if 0 < occurrences then budget - 1 else budget)
  else
    some (cursor, budget)
termination_by ord today - ord cursor
decreasing_by
  have hlt : ord cursor < ord today := by
    have := h.1
    simp only [dateLt, decide_eq_true_eq] at this
    exact this
  have := ord_lt_step cursor interval next hs
  omega

/-- A recurring-expense rule, as stored in `recurring_expenses`.
`Amount` is a Go `float64`; it is only ever copied, never computed with,
so any value type with decidable equality models it faithfully.
`Occurrences` is validated non-negative (the spec: "occurrence budget
(non-negative integer; 0 means unbounded)"). -/
structure RecurringExpense where
  ID : String
  Name : String
  Amount : Int
  Currency : String
  Category : String
  StartDate : GoDate
  Interval : String
  Occurrences : Nat
  Tags : List String
deriving DecidableEq, Repr

/-- A ledger entry, as stored in `expenses`.  `RecurringID` is the weak
back-reference to the generating rule (empty for manual entries). -/
structure Expense where
  ID : String
  RecurringID : String
  Name : String
  Category : String
  SubCategory : String
  Amount : Int
  Currency : String
  Date : GoDate
  Tags : List String
deriving DecidableEq, Repr

/-- The generation loop of `generateExpensesFromRecurring`
(`for range limit { ... }`): emit one expense at the cursor, then step;
the `default` arm of the switch returns the expenses built so far
(including the one just emitted).  `freshId` models `uuid.New().String()`
(one fresh id per emission, indexed by emission count). -/
def genLoop (recExp : RecurringExpense) (freshId : Nat → String) :
    Nat → GoDate → Nat → List Expense
  | 0, _, _ => []
  | limit + 1, cursor, idx =>
    let e : Expense :=
      { ID := freshId idx
        RecurringID := recExp.ID
        Name := recExp.Name
        Category := recExp.Category
        SubCategory := ""
        Amount := recExp.Amount
        Currency := recExp.Currency
        Date := cursor
        Tags := recExp.Tags }
    match stepDate cursor recExp.Interval with
    | none => [e]
    | some next => e :: genLoop recExp freshId limit next (idx + 1)

/-- `generateExpensesFromRecurring(recExp, fromToday)`.  `today` is the
single `time.Now()` read of the call; `freshId` models the uuid source. -/
def generateExpensesFromRecurring (recExp : RecurringExpense)
    (fromToday : Bool) (today : GoDate) (freshId : Nat → String) :
    List Expense :=
  if fromToday then
    match ffLoop recExp.Interval recExp.Occurrences today
        recExp.StartDate recExp.Occurrences with
    | none => []
    | some (cursor, occurrencesToGenerate) =>
      genLoop recExp freshId occurrencesToGenerate cursor 0
  else
    genLoop recExp freshId recExp.Occurrences recExp.StartDate 0

/-- The persisted state of the `databaseStore` relevant to the recurring
engine: the `recurring_expenses` and `expenses` tables and the default
currency (`s.defaults["currency"]`). -/
structure Store where
  recurring : List RecurringExpense
  expenses : List Expense
  defaultCurrency : String
deriving DecidableEq, Repr

/-- The rule as written by `UpdateRecurringExpense` before any row is
touched: the id is forced to the path id (`recurringExpense.ID = id`) and
an empty currency is defaulted (`s.defaults["currency"]`). -/
def updatedRule (s : Store) (id : String) (re : RecurringExpense) :
    RecurringExpense :=
  { re with
    ID := id
    Currency := if re.Currency = "" then s.defaultCurrency else re.Currency }

/-- `databaseStore.UpdateRecurringExpense(id, recurringExpense, updateAll)`.
The `UPDATE ... WHERE id` with `rowsAffected == 0` check is the not-found
guard; the delete is `DELETE FROM expenses WHERE recurring_id = id` when
`updateAll`, otherwise `... AND date > now`; then the result of
`generateExpensesFromRecurring(re, !updateAll)` is bulk-inserted.
An `Except.error` models `tx.Rollback()`: the caller keeps the old state. -/
def UpdateRecurringExpense (s : Store) (id : String)
    (recurringExpense : RecurringExpense) (updateAll : Bool)
    (today : GoDate) (freshId : Nat → String) : Except String Store :=
  let re := updatedRule s id recurringExpense
  if (s.recurring.filter (fun r => r.ID == id)).length = 0 then
    Except.error ("recurring expense with ID " ++ id ++ " not found to update")
  else
    let recurring' := s.recurring.map (fun r => if r.ID == id then re else r)
    let kept := s.expenses.filter (fun e =>
      if updateAll then !(e.RecurringID == id)
      else !(e.RecurringID == id && dateLt today e.Date))
    let generated := generateExpensesFromRecurring re (!updateAll) today freshId
    Except.ok { s with recurring := recurring', expenses := kept ++ generated }

/-- `databaseStore.RemoveRecurringExpense(id, removeAll)`: delete the rule
row (not-found if no row matched), then delete all its entries
(`removeAll`) or only those dated strictly after now. -/
def RemoveRecurringExpense (s : Store) (id : String) (removeAll : Bool)
    (today : GoDate) : Except String Store :=
  if (s.recurring.filter (fun r => r.ID == id)).length = 0 then
    Except.error ("recurring expense with ID " ++ id ++ " not found")
  else
    Except.ok
      { s with
        recurring := s.recurring.filter (fun r => !(r.ID == id))
        expenses := s.expenses.filter (fun e =>
          if removeAll then !(e.RecurringID == id)
          else !(e.RecurringID == id && dateLt today e.Date)) }

/-- Commit-or-rollback of a transactional operation: an error leaves the
store at its pre-call state (`defer tx.Rollback()`). -/
def runTx (s : Store) (r : Except String Store) : Store :=
  match r with
  | Except.ok s' => s'
  | Except.error _ => s

/-- Cursor iteration: the date reached after `k` interval steps. -/
def iterStep (interval : String) : Nat → GoDate → Option GoDate
  | 0, dt => some dt
  | k + 1, dt =>
    match stepDate dt interval with
    | none => none
    | some next => iterStep interval k next

/-- Spec-side definition (follows the spec's words, to be compared with
the source-derived `stepDate`): the next calendar day of a valid date. -/
def nextCalendarDay (dt : GoDate) : GoDate :=
  if dt.day < daysInMonth dt.year dt.month then ⟨dt.year, dt.month, dt.day + 1⟩
  else if dt.month = 12 then ⟨dt.year + 1, 1, 1⟩
  else ⟨dt.year, dt.month + 1, 1⟩

/-- Spec-side: advancing a date by `k` calendar days. -/
def addCalendarDays : Nat → GoDate → GoDate
  | 0, dt => dt
  | k + 1, dt => addCalendarDays k (nextCalendarDay dt)

/-- Spec-side definition of "add 1 calendar month with standard
date-overflow normalization": day `d` of the target month is the
`(d-1)`-th calendar-day successor of the first day of the target month,
so a day that does not exist in the target month rolls forward. -/
def addOneCalendarMonth (dt : GoDate) : GoDate :=
  if dt.month = 12 then addCalendarDays (dt.day - 1) ⟨dt.year + 1, 1, 1⟩
  else addCalendarDays (dt.day - 1) ⟨dt.year, dt.month + 1, 1⟩

/-- Spec-side definition of "add 1 calendar year with standard
date-overflow normalization" (Feb 29 of a leap year rolls forward). -/
def addOneCalendarYear (dt : GoDate) : GoDate :=
  addCalendarDays (dt.day - 1) ⟨dt.year + 1, dt.month, 1⟩

/- ======================================================================
   Theorems
   ====================================================================== -/

theorem dateLt_eq_calendar (a b : GoDate) (ha : ValidDate a) (hb : ValidDate b) :
    dateLt a b = true ↔ calendarLt a b := by
  obtain ⟨ha1, ha2, ha3, ha4⟩ := ha
  obtain ⟨hb1, hb2, hb3, hb4⟩ := hb
  have hA := daysInMonth_bounds a.year a.month
  have hB := daysInMonth_bounds b.year b.month
  simp only [dateLt, ord, calendarLt, decide_eq_true_eq]
  omega

/-- Facts about a normally terminating fast-forward loop: the loop exits
with the cursor no longer before "now" or (for a bounded rule) with the
budget exhausted; the budget never grows; and an unbounded rule's budget
is left untouched. -/
theorem ffLoop_some_facts (interval : String) (occ : Nat) (today : GoDate) :
    ∀ (m : Nat) (cursor : GoDate) (budget : Nat) (c : GoDate) (b : Nat),
      ord today - ord cursor ≤ m →
      ffLoop interval occ today cursor budget = some (c, b) →
      (dateLt c today = false ∨ (occ ≠ 0 ∧ b = 0)) ∧ b ≤ budget ∧
        (occ = 0 → b = budget) := by
  intro m
  induction m with
  | zero =>
    intro cursor budget c b hm h
    rw [ffLoop.eq_def] at h
    split at h
    · rename_i hcond
      exfalso
      have := hcond.1
      simp only [dateLt, decide_eq_true_eq] at this
      omega
    · rename_i hcond
      injection h with h'
      rw [Prod.mk.injEq] at h'
      obtain ⟨rfl, rfl⟩ := h'
      refine ⟨?_, le_refl _, fun _ => rfl⟩
      by_cases hocc : occ = 0
      · left
        cases hB : dateLt cursor today
        · rfl
        · exact absurd ⟨hB, Or.inl hocc⟩ hcond
      · by_cases hb : budget = 0
        · exact Or.inr ⟨hocc, hb⟩
        · left
          cases hB : dateLt cursor today
          · rfl
          · exact absurd ⟨hB, Or.inr (Nat.pos_of_ne_zero hb)⟩ hcond
  | succ m ih =>
    intro cursor budget c b hm h
    rw [ffLoop.eq_def] at h
    split at h
    · rename_i hcond
      split at h
      · exact Option.noConfusion h
      · rename_i next hs
        have hlt : ord cursor < ord today := by
          have := hcond.1
          simp only [dateLt, decide_eq_true_eq] at this
          exact this
        have hstep := ord_lt_step cursor interval next hs
        have hm' : ord today - ord next ≤ m := by omega
        have hfacts := ih next _ c b hm' h
        refine ⟨hfacts.1, ?_, ?_⟩
        · have := hfacts.2.1
          split at this <;> omega
        · intro hocc
          have := hfacts.2.2 hocc
          subst hocc
          simp at this
          exact this
    · rename_i hcond
      injection h with h'
      rw [Prod.mk.injEq] at h'
      obtain ⟨rfl, rfl⟩ := h'
      refine ⟨?_, le_refl _, fun _ => rfl⟩
      by_cases hocc : occ = 0
      · left
        cases hB : dateLt cursor today
        · rfl
        · exact absurd ⟨hB, Or.inl hocc⟩ hcond
      · by_cases hb : budget = 0
        · exact Or.inr ⟨hocc, hb⟩
        · left
          cases hB : dateLt cursor today
          · rfl
          · exact absurd ⟨hB, Or.inr (Nat.pos_of_ne_zero hb)⟩ hcond

theorem ffLoop_post (interval : String) (occ : Nat) (today cursor : GoDate)
    (budget : Nat) (c : GoDate) (b : Nat)
    (h : ffLoop interval occ today cursor budget = some (c, b)) :
    dateLt c today = false ∨ b = 0 := by
  rcases (ffLoop_some_facts interval occ today (ord today - ord cursor) cursor
      budget c b (le_refl _) h).1 with h' | h'
  · exact Or.inl h'
  · exact Or.inr h'.2

theorem ffLoop_budget_le (interval : String) (occ : Nat) (today cursor : GoDate)
    (budget : Nat) (c : GoDate) (b : Nat)
    (h : ffLoop interval occ today cursor budget = some (c, b)) : b ≤ budget :=
  (ffLoop_some_facts interval occ today (ord today - ord cursor) cursor
      budget c b (le_refl _) h).2.1

theorem ffLoop_occ_zero (interval : String) (today cursor : GoDate)
    (budget : Nat) (c : GoDate) (b : Nat)
    (h : ffLoop interval 0 today cursor budget = some (c, b)) : b = budget :=
  (ffLoop_some_facts interval 0 today (ord today - ord cursor) cursor
      budget c b (le_refl _) h).2.2 rfl

/-- Every expense emitted by the generation loop carries the rule's
back-reference, a fresh id from the supply, and a date not before the
cursor the loop started at. -/
theorem genLoop_mem (re : RecurringExpense) (ids : Nat → String) :
    ∀ (limit : Nat) (cursor : GoDate) (idx : Nat) (e : Expense),
      e ∈ genLoop re ids limit cursor idx →
      e.RecurringID = re.ID ∧ (∃ n, e.ID = ids n) ∧ ord cursor ≤ ord e.Date := by
  intro limit
  induction limit with
  | zero => intro cursor idx e he; simp [genLoop] at he
  | succ limit ih =>
    intro cursor idx e he
    simp only [genLoop] at he
    cases hs : stepDate cursor re.Interval with
    | none =>
      rw [hs] at he
      simp at he
      subst he
      exact ⟨rfl, ⟨idx, rfl⟩, le_refl _⟩
    | some next =>
      rw [hs] at he
      simp at he
      rcases he with rfl | he
      · exact ⟨rfl, ⟨idx, rfl⟩, le_refl _⟩
      · have h3 := ih next (idx + 1) e he
        have := ord_lt_step cursor re.Interval next hs
        exact ⟨h3.1, h3.2.1, by omega⟩

theorem genLoop_length_le (re : RecurringExpense) (ids : Nat → String) :
    ∀ (limit : Nat) (cursor : GoDate) (idx : Nat),
      (genLoop re ids limit cursor idx).length ≤ limit := by
  intro limit
  induction limit with
  | zero => intro cursor idx; simp [genLoop]
  | succ limit ih =>
    intro cursor idx
    simp only [genLoop]
    cases hs : stepDate cursor re.Interval with
    | none => simp
    | some next =>
      simp only [List.length_cons]
      have := ih next (idx + 1)
      omega

/-- The dates emitted by the generation loop do not depend on the id
supply or on the emission index. -/
theorem genLoop_dates (re : RecurringExpense) (ids1 ids2 : Nat → String) :
    ∀ (limit : Nat) (cursor : GoDate) (idx1 idx2 : Nat),
      (genLoop re ids1 limit cursor idx1).map (fun e => e.Date) =
        (genLoop re ids2 limit cursor idx2).map (fun e => e.Date) := by
  intro limit
  induction limit with
  | zero => intro cursor idx1 idx2; simp [genLoop]
  | succ limit ih =>
    intro cursor idx1 idx2
    simp only [genLoop]
    cases hs : stepDate cursor re.Interval with
    | none => simp
    | some next => simp [ih next (idx1 + 1) (idx2 + 1)]

/-- The dates emitted by the generation loop are strictly ascending. -/
theorem genLoop_pairwise (re : RecurringExpense) (ids : Nat → String) :
    ∀ (limit : Nat) (cursor : GoDate) (idx : Nat),
      ((genLoop re ids limit cursor idx).map (fun e => e.Date)).Pairwise
        (fun a b => dateLt a b = true) := by
  intro limit
  induction limit with
  | zero => intro cursor idx; simp [genLoop]
  | succ limit ih =>
    intro cursor idx
    simp only [genLoop]
    cases hs : stepDate cursor re.Interval with
    | none => simp
    | some next =>
      simp only [List.map_cons, List.pairwise_cons]
      constructor
      · intro d hd
        simp only [List.mem_map] at hd
        obtain ⟨e, he, rfl⟩ := hd
        have h3 := (genLoop_mem re ids limit next (idx + 1) e he).2.2
        have := ord_lt_step cursor re.Interval next hs
        simp only [dateLt, decide_eq_true_eq]
        omega
      · exact ih next (idx + 1)

theorem stepDate_invalid (interval : String)
    (h : interval ∉ ["daily", "weekly", "monthly", "yearly"]) (dt : GoDate) :
    stepDate dt interval = none := by
  simp only [List.mem_cons, List.not_mem_nil, or_false, not_or] at h
  obtain ⟨h1, h2, h3, h4⟩ := h
  unfold stepDate
  rw [if_neg h1, if_neg h2, if_neg h3, if_neg h4]

/-- Claim C4: for every rule whose occurrence budget is 0 (unbounded),
`expand(rule, fastForward=false)` returns the empty sequence. -/
theorem c4_unbounded_no_fastforward_empty (re : RecurringExpense)
    (today : GoDate) (ids : Nat → String) (h : re.Occurrences = 0) :
    generateExpensesFromRecurring re false today ids = [] := by
  simp [generateExpensesFromRecurring, h, genLoop]

/-- Witness for C4 at a concrete unbounded daily rule. -/
theorem c4_unbounded_no_fastforward_empty_witness :
    (⟨"r", "n", 1, "USD", "c", ⟨2026, 1, 1⟩, "daily", 0, []⟩ :
        RecurringExpense).Occurrences = 0 ∧
    generateExpensesFromRecurring
      ⟨"r", "n", 1, "USD", "c", ⟨2026, 1, 1⟩, "daily", 0, []⟩ false
      ⟨2026, 2, 1⟩ (fun n => toString n) = [] :=
  ⟨rfl, c4_unbounded_no_fastforward_empty _ _ _ rfl⟩

/-- Claim C10: for every rule whose occurrence budget is 0 (unbounded),
`expand` returns the empty sequence for `fastForward=true` as well:
fast-forwarding never makes an unbounded rule produce entries, because the
generation limit after fast-forward is still the (zero) remaining budget. -/
theorem c10_unbounded_fastforward_empty (re : RecurringExpense)
    (today : GoDate) (ids : Nat → String) (h : re.Occurrences = 0) :
    generateExpensesFromRecurring re true today ids = [] := by
  unfold generateExpensesFromRecurring
  rw [h]
  simp only [if_pos]
  cases hf : ffLoop re.Interval 0 today re.StartDate 0 with
  | none => rfl
  | some cb =>
    obtain ⟨c, b⟩ := cb
    have hb := ffLoop_occ_zero re.Interval today re.StartDate 0 c b hf
    subst hb
    rfl

/-- Witness for C10 at a concrete unbounded daily rule whose start lies
before "now" (so the fast-forward loop actually runs). -/
theorem c10_unbounded_fastforward_empty_witness :
    (⟨"r", "n", 1, "USD", "c", ⟨2026, 1, 1⟩, "daily", 0, []⟩ :
        RecurringExpense).Occurrences = 0 ∧
    generateExpensesFromRecurring
      ⟨"r", "n", 1, "USD", "c", ⟨2026, 1, 1⟩, "daily", 0, []⟩ true
      ⟨2026, 1, 3⟩ (fun n => toString n) = [] :=
  ⟨rfl, c10_unbounded_fastforward_empty _ _ _ rfl⟩

/-- Claim C8: a daily rule starting 2026-01-01 with occurrence budget 5
expands (without fast-forward) to exactly five entries dated 2026-01-01
through 2026-01-05, in order, each inheriting the rule's name, category,
amount, currency and tags and carrying the rule's back-reference. -/
theorem c8_daily_five (rid nm cat cur : String) (amt : Int)
    (tags : List String) (today : GoDate) (ids : Nat → String) :
    generateExpensesFromRecurring
        ⟨rid, nm, amt, cur, cat, ⟨2026, 1, 1⟩, "daily", 5, tags⟩
        false today ids =
      [⟨ids 0, rid, nm, cat, "", amt, cur, ⟨2026, 1, 1⟩, tags⟩,
       ⟨ids 1, rid, nm, cat, "", amt, cur, ⟨2026, 1, 2⟩, tags⟩,
       ⟨ids 2, rid, nm, cat, "", amt, cur, ⟨2026, 1, 3⟩, tags⟩,
       ⟨ids 3, rid, nm, cat, "", amt, cur, ⟨2026, 1, 4⟩, tags⟩,
       ⟨ids 4, rid, nm, cat, "", amt, cur, ⟨2026, 1, 5⟩, tags⟩] := by
  rfl

/-- Claim C9: expansion with `fastForward=false` is deterministic in its
dates: any two calls (whatever "now" and the id supply are) produce
sequences of equal length with pairwise equal entry dates, in strictly
ascending chronological order. -/
theorem c9_deterministic_dates (re : RecurringExpense) (t1 t2 : GoDate)
    (ids1 ids2 : Nat → String) :
    ((generateExpensesFromRecurring re false t1 ids1).map (fun e => e.Date) =
      (generateExpensesFromRecurring re false t2 ids2).map (fun e => e.Date)) ∧
    (generateExpensesFromRecurring re false t1 ids1).length =
      (generateExpensesFromRecurring re false t2 ids2).length ∧
    ((generateExpensesFromRecurring re false t1 ids1).map
        (fun e => e.Date)).Pairwise (fun a b => dateLt a b = true) := by
  have hmap := genLoop_dates re ids1 ids2 re.Occurrences re.StartDate 0 0
  refine ⟨?_, ?_, ?_⟩
  · simpa [generateExpensesFromRecurring] using hmap
  · have hlen := congrArg List.length hmap
    simp only [List.length_map] at hlen
    simpa [generateExpensesFromRecurring] using hlen
  · simpa [generateExpensesFromRecurring] using
      genLoop_pairwise re ids1 re.Occurrences re.StartDate 0

/-- Claim C5: for every rule with a non-zero occurrence budget and either
fast-forward flag, the number of returned entries never exceeds the
budget; moreover (fast-forward case) the returned-entry count plus the
budget units consumed by fast-forwarding is still at most the budget. -/
theorem c5_budget_bound (re : RecurringExpense) (ff : Bool) (today : GoDate)
    (ids : Nat → String) (h : re.Occurrences ≠ 0) :
    (generateExpensesFromRecurring re ff today ids).length ≤ re.Occurrences ∧
    (∀ (c : GoDate) (rem : Nat),
      ffLoop re.Interval re.Occurrences today re.StartDate re.Occurrences =
          some (c, rem) →
      rem ≤ re.Occurrences ∧
      (generateExpensesFromRecurring re true today ids).length +
        (re.Occurrences - rem) ≤ re.Occurrences) := by
  constructor
  · cases ff
    · simpa [generateExpensesFromRecurring] using
        genLoop_length_le re ids re.Occurrences re.StartDate 0
    · unfold generateExpensesFromRecurring
      simp only [if_pos]
      cases hf : ffLoop re.Interval re.Occurrences today re.StartDate
          re.Occurrences with
      | none => simp
      | some cb =>
        obtain ⟨c, b⟩ := cb
        have hble := ffLoop_budget_le re.Interval re.Occurrences today
          re.StartDate re.Occurrences c b hf
        have hlen := genLoop_length_le re ids b c 0
        show (genLoop re ids b c 0).length ≤ re.Occurrences
        omega
  · intro c rem hf
    have hble := ffLoop_budget_le re.Interval re.Occurrences today
      re.StartDate re.Occurrences c rem hf
    refine ⟨hble, ?_⟩
    unfold generateExpensesFromRecurring
    simp only [if_pos]
    rw [hf]
    have hlen := genLoop_length_le re ids rem c 0
    show (genLoop re ids rem c 0).length + (re.Occurrences - rem) ≤
      re.Occurrences
    omega

/-- Witness for C5: a daily rule with budget 5 fast-forwarded one day. -/
theorem c5_budget_bound_witness :
    (⟨"r", "n", 1, "USD", "c", ⟨2026, 1, 1⟩, "daily", 5, []⟩ :
        RecurringExpense).Occurrences ≠ 0 ∧
    ((generateExpensesFromRecurring
        ⟨"r", "n", 1, "USD", "c", ⟨2026, 1, 1⟩, "daily", 5, []⟩ true
        ⟨2026, 1, 2⟩ (fun n => toString n)).length ≤ 5 ∧
      (∀ (c : GoDate) (rem : Nat),
        ffLoop "daily" 5 ⟨2026, 1, 2⟩ ⟨2026, 1, 1⟩ 5 = some (c, rem) →
        rem ≤ 5 ∧
        (generateExpensesFromRecurring
            ⟨"r", "n", 1, "USD", "c", ⟨2026, 1, 1⟩, "daily", 5, []⟩ true
            ⟨2026, 1, 2⟩ (fun n => toString n)).length + (5 - rem) ≤ 5)) :=
  ⟨by decide,
   c5_budget_bound ⟨"r", "n", 1, "USD", "c", ⟨2026, 1, 1⟩, "daily", 5, []⟩
     true ⟨2026, 1, 2⟩ (fun n => toString n) (by decide)⟩

/-- Claim C6: for every rule whose interval kind is invalid (not daily,
weekly, monthly or yearly) and either fast-forward flag, expansion
terminates normally and returns the (possibly empty) sequence built
before the invalid interval was consulted, rather than signalling an
error: nothing if the fast-forward loop consults it first (start before
"now"), nothing if the limit is zero, and exactly the one entry emitted
at the start date otherwise. -/
theorem c6_invalid_interval_truncation (re : RecurringExpense) (ff : Bool)
    (today : GoDate) (ids : Nat → String)
    (h : re.Interval ∉ ["daily", "weekly", "monthly", "yearly"]) :
    generateExpensesFromRecurring re ff today ids =
      if ff && dateLt re.StartDate today then []
      else if re.Occurrences = 0 then []
      else [⟨ids 0, re.ID, re.Name, re.Category, "", re.Amount, re.Currency,
             re.StartDate, re.Tags⟩] := by
  have hstep := stepDate_invalid re.Interval h
  have hgen : ∀ (limit : Nat) (cursor : GoDate),
      genLoop re ids limit cursor 0 =
        if limit = 0 then []
        else [⟨ids 0, re.ID, re.Name, re.Category, "", re.Amount,
               re.Currency, cursor, re.Tags⟩] := by
    intro limit cursor
    cases limit with
    | zero => simp [genLoop]
    | succ n =>
      rw [if_neg (Nat.succ_ne_zero n)]
      unfold genLoop
      rw [hstep cursor]
  cases ff
  · rw [show (false && dateLt re.StartDate today) = false from rfl]
    unfold generateExpensesFromRecurring
    rw [if_neg (by simp : ¬(false = true)),
      if_neg (by simp : ¬(false = true)), hgen]
  · cases hlt : dateLt re.StartDate today
    · rw [if_neg (by decide : ¬((true && false) = true))]
      unfold generateExpensesFromRecurring
      rw [if_pos rfl, ffLoop.eq_def]
      rw [dif_neg (by rw [hlt]; simp)]
      exact hgen re.Occurrences re.StartDate
    · rw [if_pos (by decide : (true && true) = true)]
      unfold generateExpensesFromRecurring
      rw [if_pos rfl, ffLoop.eq_def]
      rw [dif_pos ⟨hlt, by omega⟩]
      split
      · rfl
      · rename_i next hs
        rw [hstep re.StartDate] at hs
        exact Option.noConfusion hs

/-- Witness for C6: an unrecognized interval kind with a positive budget
and no fast-forward returns exactly the first emitted entry. -/
theorem c6_invalid_interval_truncation_witness :
    ("fortnightly" : String) ∉ ["daily", "weekly", "monthly", "yearly"] ∧
    generateExpensesFromRecurring
        ⟨"r", "n", 1, "USD", "c", ⟨2026, 1, 1⟩, "fortnightly", 3, []⟩ false
        ⟨2026, 2, 1⟩ (fun n => toString n) =
      (if false && dateLt ⟨2026, 1, 1⟩ ⟨2026, 2, 1⟩ then []
       else if (3 : Nat) = 0 then []
       else [⟨toString 0, "r", "n", "c", "", 1, "USD", ⟨2026, 1, 1⟩, []⟩]) :=
  ⟨by decide,
   c6_invalid_interval_truncation
     ⟨"r", "n", 1, "USD", "c", ⟨2026, 1, 1⟩, "fortnightly", 3, []⟩ false
     ⟨2026, 2, 1⟩ (fun n => toString n) (by decide)⟩

theorem nextCalendarDay_mk (y m d : Nat) :
    nextCalendarDay ⟨y, m, d⟩ =
      if d < daysInMonth y m then ⟨y, m, d + 1⟩
      else if m = 12 then ⟨y + 1, 1, 1⟩ else ⟨y, m + 1, 1⟩ := rfl

theorem addCalendarDays_within :
    ∀ (k y m d : Nat), 1 ≤ m → m ≤ 12 → 1 ≤ d →
      d + k ≤ daysInMonth y m →
      addCalendarDays k ⟨y, m, d⟩ = ⟨y, m, d + k⟩ := by
  intro k
  induction k with
  | zero => intro y m d _ _ _ _; rfl
  | succ k ih =>
    intro y m d hm1 hm2 hd1 hk
    rw [show addCalendarDays (k + 1) ⟨y, m, d⟩ =
          addCalendarDays k (nextCalendarDay ⟨y, m, d⟩) from rfl]
    rw [nextCalendarDay_mk, if_pos (show d < daysInMonth y m from by omega)]
    rw [ih y m (d + 1) hm1 hm2 (by omega) (by omega)]
    rw [show d + 1 + k = d + (k + 1) from by omega]

theorem addCalendarDays_add (a b : Nat) :
    ∀ dt : GoDate, addCalendarDays (a + b) dt =
      addCalendarDays b (addCalendarDays a dt) := by
  induction a with
  | zero => intro dt; rw [Nat.zero_add]; rfl
  | succ a ih =>
    intro dt
    rw [Nat.succ_add]
    show addCalendarDays (a + b) (nextCalendarDay dt) = _
    rw [ih (nextCalendarDay dt)]
    rfl

/-- The single-roll normalization agrees with counting off calendar days
from the first of the month, for any day count that can arise here. -/
theorem rollDay_eq_addCalendarDays (y m d : Nat) (hm1 : 1 ≤ m) (hm2 : m ≤ 12)
    (hd1 : 1 ≤ d) (hd2 : d ≤ 38) :
    rollDay y m d = addCalendarDays (d - 1) ⟨y, m, 1⟩ := by
  have hB := daysInMonth_bounds y m
  have hB1 := daysInMonth_bounds y (m + 1)
  have hB2 := daysInMonth_bounds (y + 1) 1
  unfold rollDay
  by_cases hc : d ≤ daysInMonth y m
  · rw [if_pos hc]
    rw [addCalendarDays_within (d - 1) y m 1 hm1 hm2 (le_refl 1) (by omega)]
    rw [show 1 + (d - 1) = d from by omega]
  · rw [if_neg hc]
    rw [show d - 1 = (daysInMonth y m - 1) + (d - daysInMonth y m) from by
      omega]
    rw [addCalendarDays_add]
    rw [addCalendarDays_within (daysInMonth y m - 1) y m 1 hm1 hm2 (le_refl 1)
      (by omega)]
    rw [show 1 + (daysInMonth y m - 1) = daysInMonth y m from by omega]
    rw [show d - daysInMonth y m = (d - daysInMonth y m - 1) + 1 from by omega]
    rw [show addCalendarDays ((d - daysInMonth y m - 1) + 1)
          ⟨y, m, daysInMonth y m⟩ =
        addCalendarDays (d - daysInMonth y m - 1)
          (nextCalendarDay ⟨y, m, daysInMonth y m⟩) from rfl]
    rw [nextCalendarDay_mk,
      if_neg (show ¬(daysInMonth y m < daysInMonth y m) from by omega)]
    by_cases hm12 : m = 12
    · subst hm12
      rw [if_pos rfl, if_pos rfl]
      have h12 : daysInMonth y 12 = 31 := rfl
      rw [addCalendarDays_within (d - daysInMonth y 12 - 1) (y + 1) 1 1
        (le_refl 1) (by omega) (le_refl 1) (by omega)]
      simp only [GoDate.mk.injEq, true_and]
      omega
    · rw [if_neg hm12, if_neg hm12]
      rw [addCalendarDays_within (d - daysInMonth y m - 1) y (m + 1) 1
        (by omega) (by omega) (le_refl 1) (by omega)]
      simp only [GoDate.mk.injEq, true_and]
      omega

/-- Claim C7: for every (valid) date, the interval step used by expansion
adds exactly 1 calendar day for "daily", 7 calendar days for "weekly",
1 calendar month for "monthly" and 1 calendar year for "yearly", where
month/year addition uses standard date-overflow normalization (a day that
does not exist in the target month rolls forward). -/
theorem c7_interval_step (dt : GoDate) (h : ValidDate dt) :
    stepDate dt "daily" = some (addCalendarDays 1 dt) ∧
    stepDate dt "weekly" = some (addCalendarDays 7 dt) ∧
    stepDate dt "monthly" = some (addOneCalendarMonth dt) ∧
    stepDate dt "yearly" = some (addOneCalendarYear dt) := by
  obtain ⟨y, m, d⟩ := dt
  have hm1 : 1 ≤ m := h.1
  have hm2 : m ≤ 12 := h.2.1
  have hd1 : 1 ≤ d := h.2.2.1
  have hd2 : d ≤ daysInMonth y m := h.2.2.2
  have hB := daysInMonth_bounds y m
  have hfirst : addCalendarDays (d - 1) ⟨y, m, 1⟩ = ⟨y, m, d⟩ := by
    rw [addCalendarDays_within (d - 1) y m 1 hm1 hm2 (le_refl 1) (by omega)]
    rw [show 1 + (d - 1) = d from by omega]
  refine ⟨?_, ?_, ?_, ?_⟩
  · have hstep : stepDate ⟨y, m, d⟩ "daily" =
        some (rollDay y m (d + 1)) := rfl
    rw [hstep]
    rw [rollDay_eq_addCalendarDays y m (d + 1) hm1 hm2 (by omega) (by omega)]
    rw [show d + 1 - 1 = (d - 1) + 1 from by omega]
    rw [addCalendarDays_add (d - 1) 1 ⟨y, m, 1⟩, hfirst]
  · have hstep : stepDate ⟨y, m, d⟩ "weekly" =
        some (rollDay y m (d + 7)) := rfl
    rw [hstep]
    rw [rollDay_eq_addCalendarDays y m (d + 7) hm1 hm2 (by omega) (by omega)]
    rw [show d + 7 - 1 = (d - 1) + 7 from by omega]
    rw [addCalendarDays_add (d - 1) 7 ⟨y, m, 1⟩, hfirst]
  · have hstep : stepDate ⟨y, m, d⟩ "monthly" =
        some (if m = 12 then rollDay (y + 1) 1 d
              else rollDay y (m + 1) d) := rfl
    have hAOM : addOneCalendarMonth ⟨y, m, d⟩ =
        (if m = 12 then addCalendarDays (d - 1) ⟨y + 1, 1, 1⟩
         else addCalendarDays (d - 1) ⟨y, m + 1, 1⟩) := rfl
    rw [hstep, hAOM]
    by_cases hm12 : m = 12
    · rw [if_pos hm12, if_pos hm12]
      exact congrArg some (rollDay_eq_addCalendarDays (y + 1) 1 d (le_refl 1)
        (by omega) hd1 (by omega))
    · rw [if_neg hm12, if_neg hm12]
      exact congrArg some (rollDay_eq_addCalendarDays y (m + 1) d (by omega)
        (by omega) hd1 (by omega))
  · have hstep : stepDate ⟨y, m, d⟩ "yearly" =
        some (rollDay (y + 1) m d) := rfl
    have hAOY : addOneCalendarYear ⟨y, m, d⟩ =
        addCalendarDays (d - 1) ⟨y + 1, m, 1⟩ := rfl
    rw [hstep, hAOY]
    exact congrArg some (rollDay_eq_addCalendarDays (y + 1) m d hm1 hm2 hd1
      (by omega))

set_option maxRecDepth 4000 in
/-- Witness for C7 at 2026-01-31; note the month step rolls the
nonexistent Feb 31 forward to Mar 3 (2026 is not a leap year). -/
theorem c7_interval_step_witness :
    ValidDate ⟨2026, 1, 31⟩ ∧
    (stepDate ⟨2026, 1, 31⟩ "daily" =
        some (addCalendarDays 1 ⟨2026, 1, 31⟩) ∧
      stepDate ⟨2026, 1, 31⟩ "weekly" =
        some (addCalendarDays 7 ⟨2026, 1, 31⟩) ∧
      stepDate ⟨2026, 1, 31⟩ "monthly" =
        some (addOneCalendarMonth ⟨2026, 1, 31⟩) ∧
      stepDate ⟨2026, 1, 31⟩ "yearly" =
        some (addOneCalendarYear ⟨2026, 1, 31⟩)) ∧
    addOneCalendarMonth ⟨2026, 1, 31⟩ = ⟨2026, 3, 3⟩ :=
  ⟨by decide, c7_interval_step ⟨2026, 1, 31⟩ (by decide), by decide⟩

theorem ffLoop_stop (interval : String) (occ : Nat) (today cursor : GoDate)
    (budget : Nat)
    (h : ¬(dateLt cursor today = true ∧ (occ = 0 ∨ 0 < budget))) :
    ffLoop interval occ today cursor budget = some (cursor, budget) := by
  rw [ffLoop.eq_def, dif_neg h]

theorem ffLoop_step (interval : String) (occ : Nat) (today cursor : GoDate)
    (budget : Nat) (next : GoDate)
    (h : dateLt cursor today = true ∧ (occ = 0 ∨ 0 < budget))
    (hs : stepDate cursor interval = some next) :
    ffLoop interval occ today cursor budget =
      ffLoop interval occ today next
        (if 0 < occ then budget - 1 else budget) := by
  rw [ffLoop.eq_def, dif_pos h]
  split
  · rename_i heq
    rw [hs] at heq
    exact Option.noConfusion heq
  · rename_i next' heq
    rw [hs] at heq
    injection heq with heq
    rw [heq]

theorem stepDate_valid_total (interval : String)
    (h : interval ∈ ["daily", "weekly", "monthly", "yearly"]) (dt : GoDate) :
    ∃ next, stepDate dt interval = some next := by
  simp only [List.mem_cons, List.not_mem_nil, or_false] at h
  rcases h with rfl | rfl | rfl | rfl
  · exact ⟨_, rfl⟩
  · exact ⟨_, rfl⟩
  · exact ⟨_, rfl⟩
  · exact ⟨_, rfl⟩

/-- Full characterization of the fast-forward loop for a bounded rule
with a steppable interval: it takes some number `n ≤ budget` of steps,
consumes exactly one budget unit per step taken, every step taken starts
from a cursor strictly before "now", and the loop stops either because
the budget ran out or because the cursor is no longer before "now". -/
theorem ffLoop_char (interval : String) (occ : Nat) (today : GoDate)
    (hocc : 0 < occ)
    (htot : ∀ dt : GoDate, ∃ next, stepDate dt interval = some next) :
    ∀ (budget : Nat) (start : GoDate),
      ∃ (n : Nat) (c : GoDate),
        n ≤ budget ∧ iterStep interval n start = some c ∧
        ffLoop interval occ today start budget = some (c, budget - n) ∧
        (∀ (k : Nat) (dte : GoDate), k < n →
          iterStep interval k start = some dte → dateLt dte today = true) ∧
        (n = budget ∨ dateLt c today = false) := by
  intro budget
  induction budget with
  | zero =>
    intro start
    refine ⟨0, start, le_refl 0, rfl, ?_, ?_, Or.inl rfl⟩
    · exact ffLoop_stop interval occ today start 0
        (by rintro ⟨-, h0 | h0⟩ <;> omega)
    · intro k dte hk _
      exact absurd hk (Nat.not_lt_zero k)
  | succ b ih =>
    intro start
    by_cases hlt : dateLt start today = true
    · obtain ⟨next, hs⟩ := htot start
      obtain ⟨n, c, hn, hiter, hff, hbefore, hexit⟩ := ih next
      refine ⟨n + 1, c, by omega, ?_, ?_, ?_, ?_⟩
      · simp only [iterStep]
        rw [hs]
        exact hiter
      · rw [ffLoop_step interval occ today start (b + 1) next
          ⟨hlt, Or.inr (Nat.succ_pos b)⟩ hs]
        rw [if_pos hocc, Nat.add_sub_cancel, Nat.succ_sub_succ]
        exact hff
      · intro k dte hk hiterk
        cases k with
        | zero =>
          simp only [iterStep] at hiterk
          injection hiterk with hd
          rw [← hd]
          exact hlt
        | succ j =>
          simp only [iterStep] at hiterk
          rw [hs] at hiterk
          exact hbefore j dte (by omega) hiterk
      · rcases hexit with h | h
        · exact Or.inl (by omega)
        · exact Or.inr h
    · refine ⟨0, start, Nat.zero_le _, rfl, ?_, ?_, Or.inr ?_⟩
      · rw [ffLoop_stop interval occ today start (b + 1)
          (fun hcond => hlt hcond.1)]
        rw [Nat.sub_zero]
      · intro k dte hk _
        exact absurd hk (Nat.not_lt_zero k)
      · cases hB : dateLt start today
        · rfl
        · exact absurd hB hlt

/-- Counterexample to claim C3 as stated: for the daily rule starting
2026-01-01 with budget 5 and "now" = 2026-01-02, the single fast-forward
step lands exactly on "now" (not before it), yet it consumes one budget
unit: the loop returns remaining budget 4, not the 5 the claim requires
when no step lands before "now". -/
theorem c3_counterexample :
    ffLoop "daily" 5 ⟨2026, 1, 2⟩ ⟨2026, 1, 1⟩ 5 =
      some (⟨2026, 1, 2⟩, 4) ∧
    dateLt ⟨2026, 1, 2⟩ ⟨2026, 1, 2⟩ = false ∧
    ffLoop "daily" 5 ⟨2026, 1, 2⟩ ⟨2026, 1, 1⟩ 5 ≠
      some (⟨2026, 1, 2⟩, 5) := by
  have hstep : stepDate ⟨2026, 1, 1⟩ "daily" = some ⟨2026, 1, 2⟩ := by decide
  have h1 := ffLoop_step "daily" 5 ⟨2026, 1, 2⟩ ⟨2026, 1, 1⟩ 5 ⟨2026, 1, 2⟩
    ⟨by decide, Or.inr (by decide)⟩ hstep
  rw [if_pos (by decide : (0 : Nat) < 5)] at h1
  have h2 := ffLoop_stop "daily" 5 ⟨2026, 1, 2⟩ ⟨2026, 1, 2⟩ 4
    (fun hc => by exact absurd hc.1 (by decide))
  have h3 : ffLoop "daily" 5 ⟨2026, 1, 2⟩ ⟨2026, 1, 1⟩ 5 =
      some (⟨2026, 1, 2⟩, 4) := h1.trans h2
  refine ⟨h3, by decide, ?_⟩
  rw [h3]
  intro hcontra
  injection hcontra with hp
  rw [Prod.mk.injEq] at hp
  exact absurd hp.2 (by decide)

/-- Claim C3 (amended): for every rule with a bounded (non-zero) budget
and a valid interval kind, expand with `fastForward=true` advances the
cursor from the rule's start date while the cursor is before "now" and
budget remains, and every advancement step taken — i.e. every step whose
*starting* cursor is before "now" — consumes exactly one budget unit,
including a final step that lands on or after "now" (the code decrements
after stepping regardless of where the step lands). -/
theorem c3_fastforward_budget (re : RecurringExpense) (today : GoDate)
    (ids : Nat → String) (hocc : 0 < re.Occurrences)
    (hval : re.Interval ∈ ["daily", "weekly", "monthly", "yearly"]) :
    ∃ (n : Nat) (c : GoDate),
      n ≤ re.Occurrences ∧
      iterStep re.Interval n re.StartDate = some c ∧
      ffLoop re.Interval re.Occurrences today re.StartDate re.Occurrences =
        some (c, re.Occurrences - n) ∧
      (∀ (k : Nat) (dte : GoDate), k < n →
        iterStep re.Interval k re.StartDate = some dte →
        dateLt dte today = true) ∧
      (n = re.Occurrences ∨ dateLt c today = false) ∧
      generateExpensesFromRecurring re true today ids =
        genLoop re ids (re.Occurrences - n) c 0 := by
  have htot := stepDate_valid_total re.Interval hval
  obtain ⟨n, c, h1, h2, h3, h4, h5⟩ := ffLoop_char re.Interval re.Occurrences
    today hocc htot re.Occurrences re.StartDate
  refine ⟨n, c, h1, h2, h3, h4, h5, ?_⟩
  unfold generateExpensesFromRecurring
  rw [if_pos rfl, h3]

/-- Witness for (amended) C3: the daily rule starting 2026-01-01 with
budget 5 fast-forwarded to "now" = 2026-01-02. -/
theorem c3_fastforward_budget_witness :
    0 < (⟨"r", "n", 1, "USD", "c", ⟨2026, 1, 1⟩, "daily", 5, []⟩ :
        RecurringExpense).Occurrences ∧
    ("daily" : String) ∈ ["daily", "weekly", "monthly", "yearly"] ∧
    (∃ (n : Nat) (c : GoDate),
      n ≤ 5 ∧
      iterStep "daily" n ⟨2026, 1, 1⟩ = some c ∧
      ffLoop "daily" 5 ⟨2026, 1, 2⟩ ⟨2026, 1, 1⟩ 5 = some (c, 5 - n) ∧
      (∀ (k : Nat) (dte : GoDate), k < n →
        iterStep "daily" k ⟨2026, 1, 1⟩ = some dte →
        dateLt dte ⟨2026, 1, 2⟩ = true) ∧
      (n = 5 ∨ dateLt c ⟨2026, 1, 2⟩ = false) ∧
      generateExpensesFromRecurring
          ⟨"r", "n", 1, "USD", "c", ⟨2026, 1, 1⟩, "daily", 5, []⟩ true
          ⟨2026, 1, 2⟩ (fun n => toString n) =
        genLoop ⟨"r", "n", 1, "USD", "c", ⟨2026, 1, 1⟩, "daily", 5, []⟩
          (fun n => toString n) (5 - n) c 0) :=
  ⟨by decide, by decide,
   c3_fastforward_budget
     ⟨"r", "n", 1, "USD", "c", ⟨2026, 1, 1⟩, "daily", 5, []⟩
     ⟨2026, 1, 2⟩ (fun n => toString n) (by decide) (by decide)⟩

/-- Claim C2: when no stored rule matches the target id, both
`UpdateRecurringExpense` and `RemoveRecurringExpense` return a not-found
error, and the transaction rollback leaves the whole store (rules and
entries) exactly as it was. -/
theorem c2_notfound_no_mutation (s : Store) (id : String)
    (re : RecurringExpense) (updateAll removeAll : Bool) (today : GoDate)
    (ids : Nat → String) (h : ∀ r ∈ s.recurring, r.ID ≠ id) :
    (∃ msg, UpdateRecurringExpense s id re updateAll today ids =
      Except.error msg) ∧
    runTx s (UpdateRecurringExpense s id re updateAll today ids) = s ∧
    (∃ msg, RemoveRecurringExpense s id removeAll today =
      Except.error msg) ∧
    runTx s (RemoveRecurringExpense s id removeAll today) = s := by
  have hfil : s.recurring.filter (fun r => r.ID == id) = [] := by
    rw [List.filter_eq_nil_iff]
    intro r hr
    simp only [beq_iff_eq]
    exact h r hr
  have hup : UpdateRecurringExpense s id re updateAll today ids =
      Except.error
        ("recurring expense with ID " ++ id ++ " not found to update") := by
    unfold UpdateRecurringExpense
    rw [hfil]
    rfl
  have hrem : RemoveRecurringExpense s id removeAll today =
      Except.error ("recurring expense with ID " ++ id ++ " not found") := by
    unfold RemoveRecurringExpense
    rw [hfil]
    rfl
  refine ⟨⟨_, hup⟩, ?_, ⟨_, hrem⟩, ?_⟩
  · rw [hup]
    rfl
  · rw [hrem]
    rfl

/-- Witness for C2: a store holding only rule "a", targeted with id "x". -/
theorem c2_notfound_no_mutation_witness :
    (∀ r ∈ (⟨[⟨"a", "n", 1, "USD", "c", ⟨2026, 1, 1⟩, "daily", 2, []⟩],
        [⟨"e1", "a", "n", "c", "", 1, "USD", ⟨2026, 1, 1⟩, []⟩],
        "USD"⟩ : Store).recurring, r.ID ≠ "x") ∧
    ((∃ msg, UpdateRecurringExpense
        ⟨[⟨"a", "n", 1, "USD", "c", ⟨2026, 1, 1⟩, "daily", 2, []⟩],
         [⟨"e1", "a", "n", "c", "", 1, "USD", ⟨2026, 1, 1⟩, []⟩], "USD"⟩
        "x" ⟨"", "m", 2, "EUR", "d", ⟨2026, 2, 1⟩, "weekly", 3, []⟩
        false ⟨2026, 3, 1⟩ (fun n => toString n) = Except.error msg) ∧
      runTx ⟨[⟨"a", "n", 1, "USD", "c", ⟨2026, 1, 1⟩, "daily", 2, []⟩],
         [⟨"e1", "a", "n", "c", "", 1, "USD", ⟨2026, 1, 1⟩, []⟩], "USD"⟩
        (UpdateRecurringExpense
          ⟨[⟨"a", "n", 1, "USD", "c", ⟨2026, 1, 1⟩, "daily", 2, []⟩],
           [⟨"e1", "a", "n", "c", "", 1, "USD", ⟨2026, 1, 1⟩, []⟩], "USD"⟩
          "x" ⟨"", "m", 2, "EUR", "d", ⟨2026, 2, 1⟩, "weekly", 3, []⟩
          false ⟨2026, 3, 1⟩ (fun n => toString n)) =
        ⟨[⟨"a", "n", 1, "USD", "c", ⟨2026, 1, 1⟩, "daily", 2, []⟩],
         [⟨"e1", "a", "n", "c", "", 1, "USD", ⟨2026, 1, 1⟩, []⟩], "USD"⟩ ∧
      (∃ msg, RemoveRecurringExpense
        ⟨[⟨"a", "n", 1, "USD", "c", ⟨2026, 1, 1⟩, "daily", 2, []⟩],
         [⟨"e1", "a", "n", "c", "", 1, "USD", ⟨2026, 1, 1⟩, []⟩], "USD"⟩
        "x" true ⟨2026, 3, 1⟩ = Except.error msg) ∧
      runTx ⟨[⟨"a", "n", 1, "USD", "c", ⟨2026, 1, 1⟩, "daily", 2, []⟩],
         [⟨"e1", "a", "n", "c", "", 1, "USD", ⟨2026, 1, 1⟩, []⟩], "USD"⟩
        (RemoveRecurringExpense
          ⟨[⟨"a", "n", 1, "USD", "c", ⟨2026, 1, 1⟩, "daily", 2, []⟩],
           [⟨"e1", "a", "n", "c", "", 1, "USD", ⟨2026, 1, 1⟩, []⟩], "USD"⟩
          "x" true ⟨2026, 3, 1⟩) =
        ⟨[⟨"a", "n", 1, "USD", "c", ⟨2026, 1, 1⟩, "daily", 2, []⟩],
         [⟨"e1", "a", "n", "c", "", 1, "USD", ⟨2026, 1, 1⟩, []⟩], "USD"⟩) :=
  ⟨by decide,
   c2_notfound_no_mutation
     ⟨[⟨"a", "n", 1, "USD", "c", ⟨2026, 1, 1⟩, "daily", 2, []⟩],
      [⟨"e1", "a", "n", "c", "", 1, "USD", ⟨2026, 1, 1⟩, []⟩], "USD"⟩
     "x" ⟨"", "m", 2, "EUR", "d", ⟨2026, 2, 1⟩, "weekly", 3, []⟩
     false true ⟨2026, 3, 1⟩ (fun n => toString n) (by decide)⟩

/-- The store produced by a successful `UpdateRecurringExpense`: the rule
row is replaced in place, the kept entries are those surviving the
delete (`all` or `date > now` per the flag), and the freshly expanded
entries are appended. -/
theorem UpdateRecurringExpense_ok_shape (s : Store) (id : String)
    (re : RecurringExpense) (updateAll : Bool) (today : GoDate)
    (ids : Nat → String) (s' : Store)
    (hok : UpdateRecurringExpense s id re updateAll today ids =
      Except.ok s') :
    s'.recurring = s.recurring.map
        (fun r => if r.ID == id then updatedRule s id re else r) ∧
    s'.expenses = s.expenses.filter
        (fun e => if updateAll then !(e.RecurringID == id)
                  else !(e.RecurringID == id && dateLt today e.Date)) ++
      generateExpensesFromRecurring (updatedRule s id re) (!updateAll)
        today ids ∧
    s'.defaultCurrency = s.defaultCurrency := by
  unfold UpdateRecurringExpense at hok
  split at hok
  · exact absurd hok (by simp)
  · injection hok with hok
    subst hok
    exact ⟨rfl, rfl, rfl⟩

theorem gen_mem_facts (re : RecurringExpense) (ff : Bool) (today : GoDate)
    (ids : Nat → String) (e : Expense)
    (he : e ∈ generateExpensesFromRecurring re ff today ids) :
    e.RecurringID = re.ID ∧ (∃ n, e.ID = ids n) := by
  unfold generateExpensesFromRecurring at he
  cases ff
  · simp only [Bool.false_eq_true, if_false] at he
    have := genLoop_mem re ids re.Occurrences re.StartDate 0 e he
    exact ⟨this.1, this.2.1⟩
  · simp only [if_pos] at he
    cases hf : ffLoop re.Interval re.Occurrences today re.StartDate
        re.Occurrences with
    | none => rw [hf] at he; simp at he
    | some cb =>
      obtain ⟨c, b⟩ := cb
      rw [hf] at he
      have := genLoop_mem re ids b c 0 e he
      exact ⟨this.1, this.2.1⟩

theorem gen_not_mem_of_fresh (re : RecurringExpense) (ff : Bool)
    (today : GoDate) (ids : Nat → String) (e : Expense)
    (hfresh : ∀ n, ids n ≠ e.ID) :
    e ∉ generateExpensesFromRecurring re ff today ids := by
  intro he
  obtain ⟨-, n, hn⟩ := gen_mem_facts re ff today ids e he
  exact hfresh n hn.symm

/-- Every entry produced by a fast-forwarded expansion is dated on or
after "now". -/
theorem gen_fastforward_dates (re : RecurringExpense) (today : GoDate)
    (ids : Nat → String) (e : Expense)
    (he : e ∈ generateExpensesFromRecurring re true today ids) :
    dateLt e.Date today = false := by
  unfold generateExpensesFromRecurring at he
  simp only [if_pos] at he
  cases hf : ffLoop re.Interval re.Occurrences today re.StartDate
      re.Occurrences with
  | none => rw [hf] at he; simp at he
  | some cb =>
    obtain ⟨c, b⟩ := cb
    rw [hf] at he
    rcases ffLoop_post re.Interval re.Occurrences today re.StartDate
        re.Occurrences c b hf with hcd | hb0
    · have hord := (genLoop_mem re ids b c 0 e he).2.2
      simp only [dateLt, decide_eq_false_iff_not] at hcd ⊢
      omega
    · subst hb0
      simp [genLoop] at he

/-- Claim C1 (amended): after a successful
`Update(id, newRule, applyToAll=false)` at cutover time T (with fresh
entry ids), every pre-existing entry referencing the rule with date ≤ T
is present unchanged (same multiplicity), every pre-existing entry
referencing the rule with date > T is gone, the entries referencing the
rule with date > T are exactly the entries *with date > T* among those
produced by `expand(newRule', fastForward=true)` (`newRule'` being
`newRule` after the id assignment and currency defaulting Update
performs), every produced entry is present, references the rule and is
dated ≥ T (a produced entry dated exactly T is also present, which is
what refutes the claim's unrestricted "exactly"), and entries not
referencing the rule are untouched. -/
theorem c1_update_future_only (s s' : Store) (id : String)
    (re : RecurringExpense) (T : GoDate) (ids : Nat → String)
    (hfresh : ∀ (n : Nat), ∀ e ∈ s.expenses, ids n ≠ e.ID)
    (hok : UpdateRecurringExpense s id re false T ids = Except.ok s') :
    (∀ e ∈ s.expenses, e.RecurringID = id → dateLt T e.Date = false →
      s'.expenses.count e = s.expenses.count e) ∧
    (∀ e ∈ s.expenses, e.RecurringID = id → dateLt T e.Date = true →
      e ∉ s'.expenses) ∧
    (∀ e : Expense,
      (e ∈ s'.expenses ∧ e.RecurringID = id ∧ dateLt T e.Date = true) ↔
      (e ∈ generateExpensesFromRecurring (updatedRule s id re) true T ids ∧
        dateLt T e.Date = true)) ∧
    (∀ e ∈ generateExpensesFromRecurring (updatedRule s id re) true T ids,
      e ∈ s'.expenses ∧ e.RecurringID = id ∧ dateLt e.Date T = false) ∧
    (∀ e : Expense, e.RecurringID ≠ id →
      s'.expenses.count e = s.expenses.count e) := by
  obtain ⟨-, hexp, -⟩ := UpdateRecurringExpense_ok_shape s id re false T ids
    s' hok
  simp only [Bool.not_false, Bool.false_eq_true, if_false] at hexp
  refine ⟨?_, ?_, ?_, ?_, ?_⟩
  · intro e he href hdate
    rw [hexp, List.count_append]
    have hg0 : (generateExpensesFromRecurring (updatedRule s id re) true T
        ids).count e = 0 :=
      List.count_eq_zero.mpr
        (gen_not_mem_of_fresh _ _ _ _ _ (fun n => hfresh n e he))
    rw [hg0, Nat.add_zero]
    exact List.count_filter (by simp [href, hdate])
  · intro e he href hdate
    rw [hexp]
    intro hmem
    rcases List.mem_append.mp hmem with hk | hg
    · have hp := (List.mem_filter.mp hk).2
      simp [href, hdate] at hp
    · exact gen_not_mem_of_fresh _ _ _ _ _ (fun n => hfresh n e he) hg
  · intro e
    constructor
    · rintro ⟨hmem, href, hdate⟩
      rw [hexp] at hmem
      rcases List.mem_append.mp hmem with hk | hg
      · have hp := (List.mem_filter.mp hk).2
        simp [href, hdate] at hp
      · exact ⟨hg, hdate⟩
    · rintro ⟨hg, hdate⟩
      refine ⟨?_, ?_, hdate⟩
      · rw [hexp]
        exact List.mem_append_right _ hg
      · have hrid := (gen_mem_facts _ _ _ _ _ hg).1
        rw [hrid]
        rfl
  · intro e hg
    refine ⟨?_, ?_, gen_fastforward_dates _ _ _ _ hg⟩
    · rw [hexp]
      exact List.mem_append_right _ hg
    · have hrid := (gen_mem_facts _ _ _ _ _ hg).1
      rw [hrid]
      rfl
  · intro e href
    rw [hexp, List.count_append]
    have hg0 : (generateExpensesFromRecurring (updatedRule s id re) true T
        ids).count e = 0 :=
      List.count_eq_zero.mpr (by
        intro hg
        have hrid := (gen_mem_facts _ _ _ _ _ hg).1
        exact href (hrid.trans rfl))
    rw [hg0, Nat.add_zero]
    exact List.count_filter (by simp [href])

theorem c1ex_gen_eval :
    generateExpensesFromRecurring
        (updatedRule
          ⟨[⟨"r1", "old", 1, "USD", "c", ⟨2025, 1, 1⟩, "daily", 1, []⟩],
           [], "USD"⟩
          "r1" ⟨"", "new", 2, "USD", "c", ⟨2026, 1, 1⟩, "daily", 2, []⟩)
        true ⟨2026, 1, 1⟩ (fun n => toString n) =
      [⟨"0", "r1", "new", "c", "", 2, "USD", ⟨2026, 1, 1⟩, []⟩,
       ⟨"1", "r1", "new", "c", "", 2, "USD", ⟨2026, 1, 2⟩, []⟩] := by
  have hff : ffLoop "daily" 2 ⟨2026, 1, 1⟩ ⟨2026, 1, 1⟩ 2 =
      some (⟨2026, 1, 1⟩, 2) :=
    ffLoop_stop "daily" 2 ⟨2026, 1, 1⟩ ⟨2026, 1, 1⟩ 2
      (fun hc => absurd hc.1 (by decide))
  show (match ffLoop "daily" 2 ⟨2026, 1, 1⟩ ⟨2026, 1, 1⟩ 2 with
        | none => []
        | some (cursor, k) =>
          genLoop
            (updatedRule
              ⟨[⟨"r1", "old", 1, "USD", "c", ⟨2025, 1, 1⟩, "daily", 1, []⟩],
               [], "USD"⟩
              "r1" ⟨"", "new", 2, "USD", "c", ⟨2026, 1, 1⟩, "daily", 2, []⟩)
            (fun n => toString n) k cursor 0) = _
  rw [hff]
  decide

theorem c1ex_update_eval :
    UpdateRecurringExpense
        ⟨[⟨"r1", "old", 1, "USD", "c", ⟨2025, 1, 1⟩, "daily", 1, []⟩],
         [], "USD"⟩
        "r1" ⟨"", "new", 2, "USD", "c", ⟨2026, 1, 1⟩, "daily", 2, []⟩
        false ⟨2026, 1, 1⟩ (fun n => toString n) =
      Except.ok
        ⟨[⟨"r1", "new", 2, "USD", "c", ⟨2026, 1, 1⟩, "daily", 2, []⟩],
         [⟨"0", "r1", "new", "c", "", 2, "USD", ⟨2026, 1, 1⟩, []⟩,
          ⟨"1", "r1", "new", "c", "", 2, "USD", ⟨2026, 1, 2⟩, []⟩],
         "USD"⟩ := by
  simp only [UpdateRecurringExpense]
  rw [if_neg (by decide)]
  simp only [Bool.not_false]
  rw [c1ex_gen_eval]
  rfl

/-- Counterexample to claim C1 as stated: updating rule "r1" with
`applyToAll=false` at cutover T = 2026-01-01, where the new rule starts
exactly at T, succeeds, and `expand(newRule, fastForward=true)` emits an
entry dated exactly T.  That entry is stored and references the rule but
does *not* have date > T, so the stored entries with date > T are not
"exactly those produced by expand": the produced set is strictly
larger. -/
theorem c1_counterexample :
    UpdateRecurringExpense
        ⟨[⟨"r1", "old", 1, "USD", "c", ⟨2025, 1, 1⟩, "daily", 1, []⟩],
         [], "USD"⟩
        "r1" ⟨"", "new", 2, "USD", "c", ⟨2026, 1, 1⟩, "daily", 2, []⟩
        false ⟨2026, 1, 1⟩ (fun n => toString n) =
      Except.ok
        ⟨[⟨"r1", "new", 2, "USD", "c", ⟨2026, 1, 1⟩, "daily", 2, []⟩],
         [⟨"0", "r1", "new", "c", "", 2, "USD", ⟨2026, 1, 1⟩, []⟩,
          ⟨"1", "r1", "new", "c", "", 2, "USD", ⟨2026, 1, 2⟩, []⟩],
         "USD"⟩ ∧
    (⟨"0", "r1", "new", "c", "", 2, "USD", ⟨2026, 1, 1⟩, []⟩ : Expense) ∈
      generateExpensesFromRecurring
        (updatedRule
          ⟨[⟨"r1", "old", 1, "USD", "c", ⟨2025, 1, 1⟩, "daily", 1, []⟩],
           [], "USD"⟩
          "r1" ⟨"", "new", 2, "USD", "c", ⟨2026, 1, 1⟩, "daily", 2, []⟩)
        true ⟨2026, 1, 1⟩ (fun n => toString n) ∧
    (⟨"0", "r1", "new", "c", "", 2, "USD", ⟨2026, 1, 1⟩, []⟩ : Expense) ∈
      ([⟨"0", "r1", "new", "c", "", 2, "USD", ⟨2026, 1, 1⟩, []⟩,
        ⟨"1", "r1", "new", "c", "", 2, "USD", ⟨2026, 1, 2⟩, []⟩] :
        List Expense) ∧
    (⟨"0", "r1", "new", "c", "", 2, "USD", ⟨2026, 1, 1⟩, []⟩ :
      Expense).RecurringID = "r1" ∧
    dateLt ⟨2026, 1, 1⟩
      (⟨"0", "r1", "new", "c", "", 2, "USD", ⟨2026, 1, 1⟩, []⟩ :
        Expense).Date = false := by
  refine ⟨c1ex_update_eval, ?_, by decide, rfl, by decide⟩
  rw [c1ex_gen_eval]
  decide

/-- Witness for (amended) C1 at the same concrete instance. -/
theorem c1_update_future_only_witness :
    (∀ (n : Nat), ∀ e ∈ (⟨[⟨"r1", "old", 1, "USD", "c", ⟨2025, 1, 1⟩,
        "daily", 1, []⟩], [], "USD"⟩ : Store).expenses,
      (fun k => toString k) n ≠ e.ID) ∧
    ((∀ e ∈ (⟨[⟨"r1", "old", 1, "USD", "c", ⟨2025, 1, 1⟩, "daily", 1, []⟩],
        [], "USD"⟩ : Store).expenses,
      e.RecurringID = "r1" → dateLt ⟨2026, 1, 1⟩ e.Date = false →
      (⟨[⟨"r1", "new", 2, "USD", "c", ⟨2026, 1, 1⟩, "daily", 2, []⟩],
        [⟨"0", "r1", "new", "c", "", 2, "USD", ⟨2026, 1, 1⟩, []⟩,
         ⟨"1", "r1", "new", "c", "", 2, "USD", ⟨2026, 1, 2⟩, []⟩],
        "USD"⟩ : Store).expenses.count e =
        (⟨[⟨"r1", "old", 1, "USD", "c", ⟨2025, 1, 1⟩, "daily", 1, []⟩],
          [], "USD"⟩ : Store).expenses.count e) ∧
    (∀ e ∈ (⟨[⟨"r1", "old", 1, "USD", "c", ⟨2025, 1, 1⟩, "daily", 1, []⟩],
        [], "USD"⟩ : Store).expenses,
      e.RecurringID = "r1" → dateLt ⟨2026, 1, 1⟩ e.Date = true →
      e ∉ (⟨[⟨"r1", "new", 2, "USD", "c", ⟨2026, 1, 1⟩, "daily", 2, []⟩],
        [⟨"0", "r1", "new", "c", "", 2, "USD", ⟨2026, 1, 1⟩, []⟩,
         ⟨"1", "r1", "new", "c", "", 2, "USD", ⟨2026, 1, 2⟩, []⟩],
        "USD"⟩ : Store).expenses) ∧
    (∀ e : Expense,
      (e ∈ (⟨[⟨"r1", "new", 2, "USD", "c", ⟨2026, 1, 1⟩, "daily", 2, []⟩],
        [⟨"0", "r1", "new", "c", "", 2, "USD", ⟨2026, 1, 1⟩, []⟩,
         ⟨"1", "r1", "new", "c", "", 2, "USD", ⟨2026, 1, 2⟩, []⟩],
        "USD"⟩ : Store).expenses ∧
        e.RecurringID = "r1" ∧ dateLt ⟨2026, 1, 1⟩ e.Date = true) ↔
      (e ∈ generateExpensesFromRecurring
        (updatedRule
          ⟨[⟨"r1", "old", 1, "USD", "c", ⟨2025, 1, 1⟩, "daily", 1, []⟩],
           [], "USD"⟩
          "r1" ⟨"", "new", 2, "USD", "c", ⟨2026, 1, 1⟩, "daily", 2, []⟩)
        true ⟨2026, 1, 1⟩ (fun n => toString n) ∧
        dateLt ⟨2026, 1, 1⟩ e.Date = true)) ∧
    (∀ e ∈ generateExpensesFromRecurring
        (updatedRule
          ⟨[⟨"r1", "old", 1, "USD", "c", ⟨2025, 1, 1⟩, "daily", 1, []⟩],
           [], "USD"⟩
          "r1" ⟨"", "new", 2, "USD", "c", ⟨2026, 1, 1⟩, "daily", 2, []⟩)
        true ⟨2026, 1, 1⟩ (fun n => toString n),
      e ∈ (⟨[⟨"r1", "new", 2, "USD", "c", ⟨2026, 1, 1⟩, "daily", 2, []⟩],
        [⟨"0", "r1", "new", "c", "", 2, "USD", ⟨2026, 1, 1⟩, []⟩,
         ⟨"1", "r1", "new", "c", "", 2, "USD", ⟨2026, 1, 2⟩, []⟩],
        "USD"⟩ : Store).expenses ∧
        e.RecurringID = "r1" ∧ dateLt e.Date ⟨2026, 1, 1⟩ = false) ∧
    (∀ e : Expense, e.RecurringID ≠ "r1" →
      (⟨[⟨"r1", "new", 2, "USD", "c", ⟨2026, 1, 1⟩, "daily", 2, []⟩],
        [⟨"0", "r1", "new", "c", "", 2, "USD", ⟨2026, 1, 1⟩, []⟩,
         ⟨"1", "r1", "new", "c", "", 2, "USD", ⟨2026, 1, 2⟩, []⟩],
        "USD"⟩ : Store).expenses.count e =
        (⟨[⟨"r1", "old", 1, "USD", "c", ⟨2025, 1, 1⟩, "daily", 1, []⟩],
          [], "USD"⟩ : Store).expenses.count e)) :=
  ⟨fun n e he => absurd he (List.not_mem_nil e),
   c1_update_future_only
     ⟨[⟨"r1", "old", 1, "USD", "c", ⟨2025, 1, 1⟩, "daily", 1, []⟩],
      [], "USD"⟩
     ⟨[⟨"r1", "new", 2, "USD", "c", ⟨2026, 1, 1⟩, "daily", 2, []⟩],
      [⟨"0", "r1", "new", "c", "", 2, "USD", ⟨2026, 1, 1⟩, []⟩,
       ⟨"1", "r1", "new", "c", "", 2, "USD", ⟨2026, 1, 2⟩, []⟩],
      "USD"⟩
     "r1" ⟨"", "new", 2, "USD", "c", ⟨2026, 1, 1⟩, "daily", 2, []⟩
     ⟨2026, 1, 1⟩ (fun n => toString n)
     (fun n e he => absurd he (List.not_mem_nil e))
     c1ex_update_eval⟩
